import Mathlib

/-!
Verification of the MPPT terminal pipeline of the v7_terminal repository.

Python strings are modelled as `List Char`.  Each definition carries a
reference to the source function it embeds, and mirrors the control flow of
that function.  Machine integers (CRC-32 arithmetic) are modelled as `Nat`
with masks made explicit.  File and widget side effects are modelled as
explicit state values and effect lists.
-/

set_option linter.all false
set_option maxRecDepth 8000

abbrev Str := List Char

/-! ## Frame Splitter (mppt/gui.py, MPPTTerminalPanel._reader_loop)

The reader loop keeps a frame buffer `self._frame_buf` and, for every decoded
chunk, repeatedly looks for the clear-screen marker `ESC[2J`.  Everything up
to the marker is appended to the frame buffer; if the buffer is then
non-empty it is emitted (passed to `_process_full_frame`), and the buffer is
restarted holding the marker itself.
-/

/-- Marker `ESC_CLEAR = "\x1b[2J"` of mppt/gui.py. -/
def escClear : Str := ['\x1b', '[', '2', 'J']

/-- Python `buf.find(pat)`: index of the leftmost occurrence of `pat` as a
contiguous substring of the argument, `none` when absent. -/
def findSub (pat : Str) : Str → Option Nat
  | [] => if pat.isPrefixOf ([] : Str) then some 0 else none
  | c :: rest =>
    if pat.isPrefixOf (c :: rest) then some 0
    else (findSub pat rest).map (· + 1)

/-- One call of the chunk-splitting loop of `_reader_loop` (gui.py lines
343-366) on a decoded chunk `buf`, starting from frame buffer `frameBuf`.
Returns the frames handed to `_process_full_frame`, in order, and the new
frame buffer. -/
def readerFeed (frameBuf buf : Str) : List Str × Str :=
  if h : (findSub escClear buf).isSome then
    let idx := (findSub escClear buf).get h
    let fb1 := frameBuf ++ buf.take idx
    let rest := readerFeed escClear (buf.drop (idx + 4))
    ((if fb1.isEmpty then [] else [fb1]) ++ rest.1, rest.2)
  else
    ([], frameBuf ++ buf)
termination_by buf.length
decreasing_by
  cases buf with
  | nil => simp [findSub, escClear] at h
  | cons c rest => simp [List.length_drop]; omega

/-- Feeding a sequence of chunks one after the other, as successive
iterations of the reader loop do. -/
def readerFeedMany (fb : Str) : List Str → List Str × Str
  | [] => ([], fb)
  | c :: cs =>
    let r1 := readerFeed fb c
    let r2 := readerFeedMany r1.2 cs
    (r1.1 ++ r2.1, r2.2)

/-- No occurrence of the clear-screen marker starts in the last three
characters of `a` and continues into `b`: the cut between `a` and `b` does
not fall strictly inside a marker. -/
def SpanFree (a b : Str) : Prop :=
  ∀ i, i < a.length → a.length < i + 4 → escClear.isPrefixOf (a.drop i ++ b) = false

/-- Boolean version of `SpanFree`. -/
def spanFreeB (a b : Str) : Bool :=
  (List.range a.length).all fun i =>
    if a.length < i + 4 then !(escClear.isPrefixOf (a.drop i ++ b)) else true

/-- Every cut of the chunk list is span free with respect to the rest of the
stream. -/
def cutsOkB : List Str → Bool
  | [] => true
  | c :: cs => spanFreeB c cs.join && cutsOkB cs


/-! ## Python string helpers (util/ansi.py and builtin str methods) -/

/-- Python `pat in s` substring test (equivalent to `s.find(pat) != -1`). -/
def containsSub (pat l : Str) : Bool := (findSub pat l).isSome

/-- Characters matched by the regex class `\s` and stripped by `str.strip`
for Python text strings (ASCII whitespace, the C1 controls 1c-1f and 85,
and the Unicode spaces). -/
def isSpacePy (c : Char) : Bool :=
  c == ' ' || c == '\t' || c == '\n' || c == '\r' || c == '\x0b' || c == '\x0c' ||
  c == '\x1c' || c == '\x1d' || c == '\x1e' || c == '\x1f' || c == '\x85' ||
  c == '\xa0' || c == '\u1680' || ('\u2000' ≤ c && c ≤ '\u200a') || c == '\u2028' ||
  c == '\u2029' || c == '\u202f' || c == '\u205f' || c == '\u3000'

/-- Python `str.rstrip()`. -/
def rstripPy (l : Str) : Str := (l.reverse.dropWhile isSpacePy).reverse

/-- Python `str.strip()`. -/
def stripPy (l : Str) : Str := rstripPy (l.dropWhile isSpacePy)

/-- Python `str.ljust(n)` (pads with spaces, never truncates). -/
def ljustPy (s : Str) (n : Nat) : Str := s ++ List.replicate (n - s.length) ' '

/-- ASCII fragment of Python `str.upper()`, applied characterwise.  The
device frames are ASCII, where the two agree. -/
def upperPy (l : Str) : Str := l.map Char.toUpper

/-- ASCII fragment of Python `str.lower()`, applied characterwise. -/
def lowerPy (l : Str) : Str := l.map Char.toLower

/-! ## strip_ansi (util/ansi.py)

The function `strip_ansi` substitutes every non-overlapping match of the
regex (ESC, bracket, parameter bytes 0x30-0x3f, intermediate bytes 0x20-0x2f, one final byte 0x40-0x7e) by nothing and then removes NUL bytes.
The scanner below walks the string once; when a candidate sequence fails to
complete, the pending characters are emitted unchanged and scanning resumes
at the failing character.  No new match can start inside the pending run,
because a match starts with ESC and the pending characters after the
leading ESC are never ESC. -/

/-- Parameter bytes 0x30-0x3f of the ANSI sequence regex. -/
def isParamByte (c : Char) : Bool := 0x30 ≤ c.toNat && c.toNat ≤ 0x3f

/-- Intermediate bytes 0x20-0x2f of the ANSI sequence regex. -/
def isInterByte (c : Char) : Bool := 0x20 ≤ c.toNat && c.toNat ≤ 0x2f

/-- Final bytes 0x40-0x7e of the ANSI sequence regex. -/
def isFinalByte (c : Char) : Bool := 0x40 ≤ c.toNat && c.toNat ≤ 0x7e

/-- Scanner state for strip_ansi: outside a candidate sequence, after a
lone ESC, inside the parameter bytes, or inside the intermediate bytes.
The params and inters states carry the pending parameter and intermediate
characters in reverse order. -/
inductive AnsiScan
  | normal
  | afterEsc
  | params (pending : Str)
  | inters (pending : Str)

/-- One pass of the strip_ansi regex substitution over the input. -/
def stripAnsiAux : AnsiScan → Str → Str
  | .normal, [] => []
  | .normal, c :: rest =>
    if c == '\x1b' then stripAnsiAux .afterEsc rest
    else c :: stripAnsiAux .normal rest
  | .afterEsc, [] => ['\x1b']
  | .afterEsc, c :: rest =>
    if c == '[' then stripAnsiAux (.params []) rest
    else if c == '\x1b' then '\x1b' :: stripAnsiAux .afterEsc rest
    else '\x1b' :: c :: stripAnsiAux .normal rest
  | .params p, [] => '\x1b' :: '[' :: p.reverse
  | .params p, c :: rest =>
    if isParamByte c then stripAnsiAux (.params (c :: p)) rest
    else if isInterByte c then stripAnsiAux (.inters (c :: p)) rest
    else if isFinalByte c then stripAnsiAux .normal rest
    else if c == '\x1b' then ('\x1b' :: '[' :: p.reverse) ++ stripAnsiAux .afterEsc rest
    else ('\x1b' :: '[' :: p.reverse) ++ c :: stripAnsiAux .normal rest
  | .inters p, [] => '\x1b' :: '[' :: p.reverse
  | .inters p, c :: rest =>
    if isInterByte c then stripAnsiAux (.inters (c :: p)) rest
    else if isFinalByte c then stripAnsiAux .normal rest
    else if c == '\x1b' then ('\x1b' :: '[' :: p.reverse) ++ stripAnsiAux .afterEsc rest
    else ('\x1b' :: '[' :: p.reverse) ++ c :: stripAnsiAux .normal rest

/-- util/ansi.py strip_ansi: remove all ANSI escape sequences and NUL
characters. -/
def stripAnsi (l : Str) : Str := (stripAnsiAux .normal l).filter (fun c => !(c == '\x00'))

/-- The literal PASSED marker. -/
def passedStr : Str := ['P', 'A', 'S', 'S', 'E', 'D']

/-- The PASSED test applied to plain (ANSI-stripped) lines, as written in
both MPPTLogger.save_block and _process_full_frame:
`any("PASSED" in l.upper() for l in plain)`. -/
def hasPassedIn (plain : List Str) : Bool :=
  plain.any fun l => containsSub passedStr (upperPy l)

/-! ## Device Fingerprint (mppt/gui.py, _process_full_frame lines 391-398)

`crc = zlib.crc32(uid.encode("ascii", errors="ignore")) & 0xFFFF` followed
by the format `f"{crc:04X}"`.  zlib.crc32 is the standard reflected CRC-32
with polynomial 0xEDB88320, initial value 0xFFFFFFFF and final xor
0xFFFFFFFF.  All values stay below 2^32, so plain `Nat` arithmetic is
exact. -/

/-- One shift-and-conditional-xor round of the reflected CRC-32. -/
def crc32Round (crc : Nat) : Nat :=
  if crc % 2 = 1 then (crc / 2) ^^^ 0xEDB88320 else crc / 2

/-- Fold one byte into the CRC-32 accumulator (eight rounds). -/
def crc32Byte (crc b : Nat) : Nat :=
  (List.range 8).foldl (fun c _ => crc32Round c) (crc ^^^ b)

/-- zlib.crc32 over a byte list. -/
def crc32 (bytes : List Nat) : Nat :=
  (bytes.foldl crc32Byte 0xFFFFFFFF) ^^^ 0xFFFFFFFF

/-- Python `uid.encode("ascii", errors="ignore")`: non-ASCII code points
are dropped. -/
def asciiIgnore (s : Str) : List Nat :=
  (s.filter fun c => c.toNat < 128).map Char.toNat

/-- Uppercase hexadecimal digit. -/
def hexDigitU (d : Nat) : Char :=
  if d < 10 then Char.ofNat (48 + d) else Char.ofNat (55 + d)

/-- The Python format `f"{n:04X}"` for n < 2^16: exactly four uppercase
hexadecimal digits, zero padded. -/
def hex4 (n : Nat) : Str :=
  [hexDigitU (n / 4096 % 16), hexDigitU (n / 256 % 16),
   hexDigitU (n / 16 % 16), hexDigitU (n % 16)]

/-- The Device Fingerprint computed in _process_full_frame: low 16 bits of
the CRC-32 of the ASCII bytes of the UID, as four uppercase hex digits. -/
def fingerprint (uid : Str) : Str := hex4 (crc32 (asciiIgnore uid) &&& 0xFFFF)

/-- Modelled from the spec wording (spec.md section 3, Device Fingerprint):
CRC-32 of the UID text, lower 16 bits (residue modulo 2^16), uppercase hex,
zero-padded to 4 digits.  Stated separately to compare with the code
definition `fingerprint`. -/
def specFingerprint (uid : Str) : Str := hex4 (crc32 (asciiIgnore uid) % 65536)

/-- The example UID of the specification. -/
def uid7c : Str := ['7', '-', 'c', '-', '3', '2', '3', '0', '5', '3', '1', '1',
  '-', '2', '0', '3', '8', '3', '3', '4', '6']

/-- The second example UID of the specification. -/
def uid1a : Str := ['1', '-', 'a', '-', '1', '1', '1', '1', '1', '1', '1', '1',
  '-', '1', '1', '1', '1', '1', '1', '1', '1']

/-! ## Identity Masker (mppt/gui.py, UID_REGEX and _process_full_frame)

UID_REGEX is `ESC [0m \s* ( [^- CRLF]+ - [^- CRLF]+ - [^- CRLF]+ -
[^- CRLF]+ )` where the character class excludes the dash, the space, CR
and LF.  `re.search` returns the leftmost match; at a given start the
group is deterministic except for the boundary between the greedy `\s*`
and the first group (tab and the vertical separators are both whitespace
and legal group characters), which backtracks from the longest whitespace
run downwards. -/

/-- Characters allowed inside a UID group: the class `[^- \r\n]`. -/
def isUidChar (c : Char) : Bool :=
  !(c == '-' || c == ' ' || c == '\r' || c == '\n')

/-- The literal prefix `ESC [0m` of UID_REGEX. -/
def esc0m : Str := ['\x1b', '[', '0', 'm']

/-- Take one maximal non-empty run of UID characters; returns the run and
the remaining text. -/
def grpSplit (v : Str) : Option (Str × Str) :=
  let g := v.takeWhile isUidChar
  if g.isEmpty then none else some (g, v.dropWhile isUidChar)

/-- Match the group `(A+ - A+ - A+ - A+)` at the start of `v`, returning
the matched text.  Because the dash is excluded from the class, each `A+`
is forced to its maximal run and the match is deterministic. -/
def matchG (v : Str) : Option Str :=
  match grpSplit v with
  | some (g1, '-' :: v2) =>
    match grpSplit v2 with
    | some (g2, '-' :: v3) =>
      match grpSplit v3 with
      | some (g3, '-' :: v4) =>
        match grpSplit v4 with
        | some (g4, _) => some (g1 ++ '-' :: (g2 ++ '-' :: (g3 ++ '-' :: g4)))
        | none => none
      | _ => none
    | _ => none
  | _ => none

/-- Backtracking of the greedy `\s*`: try to place the group after `k`
whitespace characters, for `k` from the maximal run length down to zero.
Returns the chosen `k` and the group text. -/
def tryFromK (u : Str) : Nat → Option (Nat × Str)
  | 0 => (matchG u).map fun g => (0, g)
  | k + 1 =>
    match matchG (u.drop (k + 1)) with
    | some g => some (k + 1, g)
    | none => tryFromK u k

/-- Match UID_REGEX anchored at the start of `t`; returns the length of
the whole match (group 0, including the ESC [0m prefix and the skipped
whitespace) and the captured group. -/
def uidMatchAt (t : Str) : Option (Nat × Str) :=
  if esc0m.isPrefixOf t then
    let u := t.drop 4
    match tryFromK u (u.takeWhile isSpacePy).length with
    | some (k, g) => some (4 + k + g.length, g)
    | none => none
  else none

/-- re.search of UID_REGEX: leftmost match; returns (start, end, group). -/
def uidSearchAux : Str → Nat → Option (Nat × Nat × Str)
  | [], _ => none
  | c :: rest, i =>
    match uidMatchAt (c :: rest) with
    | some (len, g) => some (i, i + len, g)
    | none => uidSearchAux rest (i + 1)

/-- UID_REGEX.search over a frame text. -/
def uidSearch (t : Str) : Option (Nat × Nat × Str) := uidSearchAux t 0

/-- The literal replacement prefix `ID:`. -/
def idColon : Str := ['I', 'D', ':']

/-- The save_block invocation issued by _process_full_frame. -/
structure SaveCall where
  lines : List Str
  colorMatrix : Option (List (List Str))
  shortId : Option Str
  auto : Bool
deriving DecidableEq

/-- Result of processing one completed frame. -/
structure FrameOutcome where
  deviceShortId : Option Str
  maskedText : Str
  save : Option SaveCall
deriving DecidableEq

/-- MPPTTerminalPanel._process_full_frame (gui.py lines 371-431).  The pyte
terminal emulator is the external-library boundary of spec section 4.4; it
is modelled by the argument `termLines`, mapping the text fed to the
emulator to the screen lines that `get_lines` returns afterwards.
`lastColors` stands for `canvas_term.last_colors`.  The function masks the
UID in place (`ID:short` left-justified to the width of the whole matched
span), sets or clears the device short id, and issues the auto save call
when a PASSED marker is visible on the screen. -/
def processFullFrame (termLines : Str → List Str) (lastColors : Option (List (List Str)))
    (frame : Str) : FrameOutcome :=
  let step :=
    match uidSearch frame with
    | none => (none, frame)
    | some (s, e, g) =>
      let short := fingerprint g
      (some short, frame.take s ++ ljustPy (idColon ++ short) (e - s) ++ frame.drop e)
  let shortId := step.1
  let masked := step.2
  let lines := termLines masked
  let plain := lines.map stripAnsi
  { deviceShortId := shortId
    maskedText := masked
    save := if hasPassedIn plain then some ⟨lines, lastColors, shortId, true⟩ else none }


/-! ## Result Extractor and Persistence Gate (mppt/logger.py, MPPTLogger)

The workbook is modelled by its two lists of data rows (the header rows of
openpyxl are accounted for in the reported row index, `max_row + 1 =
data rows + 2`).  The text log is modelled by the list of appended blocks
(each block holding the right-stripped plain lines; the timestamp and dash
separators carry no information and are abstracted away).  A spreadsheet
save failure (`PermissionError`, file locked) is modelled by the `locked`
flag: when it is set, the workbook rows are unchanged, exactly as the file
on disk is when `wb.save` raises.  Status-bar messages are modelled by tags
naming the call sites of `_set_status` inside `save_block`. -/

/-- Color table PYTE_FG_TO_HEX of mppt/terminal_pyte.py. -/
def pyteFgToHex : List (Str × Str) := [
  (['d', 'e', 'f', 'a', 'u', 'l', 't'], ['#', 'e', '8', 'e', 'a', 'e', 'd']),
  (['b', 'l', 'a', 'c', 'k'], ['#', '0', '0', '0', '0', '0', '0']),
  (['r', 'e', 'd'], ['#', 'f', 'f', '5', '5', '5', '5']),
  (['g', 'r', 'e', 'e', 'n'], ['#', '5', '0', 'f', 'a', '7', 'b']),
  (['b', 'r', 'o', 'w', 'n'], ['#', 'f', '1', 'f', 'a', '8', 'c']),
  (['b', 'l', 'u', 'e'], ['#', '6', '2', '7', '2', 'a', '4']),
  (['m', 'a', 'g', 'e', 'n', 't', 'a'], ['#', 'f', 'f', '7', '9', 'c', '6']),
  (['c', 'y', 'a', 'n'], ['#', '8', 'b', 'e', '9', 'f', 'd']),
  (['w', 'h', 'i', 't', 'e'], ['#', 'f', '8', 'f', '8', 'f', '2']),
  (['b', 'r', 'i', 'g', 'h', 't', 'b', 'l', 'a', 'c', 'k'], ['#', '4', 'd', '4', 'd', '4', 'd']),
  (['b', 'r', 'i', 'g', 'h', 't', 'r', 'e', 'd'], ['#', 'f', 'f', '6', 'e', '6', 'e']),
  (['b', 'r', 'i', 'g', 'h', 't', 'g', 'r', 'e', 'e', 'n'], ['#', '6', '9', 'f', 'f', '9', '4']),
  (['b', 'r', 'i', 'g', 'h', 't', 'y', 'e', 'l', 'l', 'o', 'w'], ['#', 'f', 'f', 'f', 'f', 'a', '5']),
  (['b', 'r', 'i', 'g', 'h', 't', 'b', 'l', 'u', 'e'], ['#', 'd', '6', 'a', 'c', 'f', 'f']),
  (['b', 'r', 'i', 'g', 'h', 't', 'm', 'a', 'g', 'e', 'n', 't', 'a'], ['#', 'f', 'f', '9', '2', 'd', 'f']),
  (['b', 'r', 'i', 'g', 'h', 't', 'c', 'y', 'a', 'n'], ['#', 'a', '4', 'f', 'f', 'f', 'f']),
  (['b', 'r', 'i', 'g', 'h', 't', 'w', 'h', 'i', 't', 'e'], ['#', 'f', 'f', 'f', 'f', 'f', 'f'])]

/-- Python `dict.get(key, default)` over the association list. -/
def dictGet (m : List (Str × Str)) (k : Str) (dflt : Str) : Str :=
  match m.find? (fun p => p.1 == k) with
  | some p => p.2
  | none => dflt

/-- Six zero characters, the Excel color black `"000000"`. -/
def black6 : Str := ['0', '0', '0', '0', '0', '0']

/-- The Excel color `"00AA00"` used for green rows. -/
def excelGreen : Str := ['0', '0', 'A', 'A', '0', '0']

/-- The Excel color `"FF0000"` used for red rows. -/
def excelRed : Str := ['F', 'F', '0', '0', '0', '0']

/-- Python `s.lstrip("#")`. -/
def lstripHash (s : Str) : Str := s.dropWhile (fun c => c == '#')

/-- logger.py `_excel_color_from_hex`: map a terminal hex color to the
Excel font color (green, red, or black). -/
def excelColorFromHex (o : Option Str) : Str :=
  match o with
  | none => black6
  | some h =>
    if h.isEmpty then black6
    else
      let clean := lowerPy (lstripHash h)
      let greenA := lowerPy (lstripHash (dictGet pyteFgToHex ['g', 'r', 'e', 'e', 'n'] []))
      let greenB := lowerPy (lstripHash (dictGet pyteFgToHex ['b', 'r', 'i', 'g', 'h', 't', 'g', 'r', 'e', 'e', 'n'] []))
      let redA := lowerPy (lstripHash (dictGet pyteFgToHex ['r', 'e', 'd'] []))
      let redB := lowerPy (lstripHash (dictGet pyteFgToHex ['b', 'r', 'i', 'g', 'h', 't', 'r', 'e', 'd'] []))
      if clean == greenA || clean == greenB then excelGreen
      else if clean == redA || clean == redB then excelRed
      else black6

/-- First truthy (non-empty) entry of a color row, as the loop in
`_row_hex_color`. -/
def firstTruthy : List Str → Option Str
  | [] => none
  | c :: rest => if c.isEmpty then firstTruthy rest else some c

/-- logger.py `_row_hex_color`: color of the first visible colored cell of
row `rowIdx` of the color matrix. -/
def rowHexColor (cm : Option (List (List Str))) (rowIdx : Nat) : Option Str :=
  match cm with
  | none => none
  | some m =>
    match m.drop rowIdx with
    | [] => none
    | row :: _ => firstTruthy row

/-- Hexadecimal digit class `[0-9A-Fa-f]` of the ID regex. -/
def isHexDigitPy (c : Char) : Bool :=
  c.isDigit || ('a' ≤ c && c ≤ 'f') || ('A' ≤ c && c ≤ 'F')

/-- Leftmost match of the regex `ID:` followed by exactly four hex digits;
returns the four digits. -/
def findIdHex : Str → Option Str
  | 'I' :: 'D' :: ':' :: a :: b :: c :: d :: rest =>
    if isHexDigitPy a && isHexDigitPy b && isHexDigitPy c && isHexDigitPy d then
      some [a, b, c, d]
    else findIdHex ('D' :: ':' :: a :: b :: c :: d :: rest)
  | _ :: rest => findIdHex rest
  | [] => none

/-- First line (top to bottom) containing an `ID:XXXX` match; returns the
row index and the digits. -/
def findFirstId : List Str → Nat → Option (Nat × Str)
  | [], _ => none
  | ln :: rest, i =>
    match findIdHex ln with
    | some hx => some (i, hx)
    | none => findFirstId rest (i + 1)

/-- Content of the first bracket pair on the line: the regex finds the
leftmost opening bracket, takes everything up to the next closing bracket,
and fails when no closing bracket follows. -/
def firstBracket (ln : Str) : Option Str :=
  match ln.dropWhile (fun c => !(c == '[')) with
  | [] => none
  | _ :: rest =>
    if rest.any (fun c => c == ']') then some (rest.takeWhile (fun c => !(c == ']')))
    else none

/-- Match `label \s+ (-?\d+)` anchored at the start: the label literally,
at least one whitespace character, then an optional minus and a maximal
non-empty digit run.  Returns the signed digit group. -/
def tryNumAt (label ln : Str) : Option Str :=
  if label.isPrefixOf ln then
    let after := ln.drop label.length
    let sp := after.takeWhile isSpacePy
    if sp.isEmpty then none
    else
      match after.drop sp.length with
      | '-' :: v2 =>
        let ds := v2.takeWhile Char.isDigit
        if ds.isEmpty then none else some ('-' :: ds)
      | v =>
        let ds := v.takeWhile Char.isDigit
        if ds.isEmpty then none else some ds
  else none

/-- re.search of `label \s+ (-?\d+)`: try every start position from the
left. -/
def findLabelNum (label : Str) : Str → Option Str
  | [] => none
  | c :: rest =>
    match tryNumAt label (c :: rest) with
    | some g => some g
    | none => findLabelNum label rest

/-- Extraction mode of a field rule: the bracket content or the number
after the label. -/
inductive PMode
  | bracket
  | number
deriving DecidableEq

/-- The fixed label/column/mode fixture of `_parse_frame`. -/
def rulesFixture : List (Str × Nat × PMode) := [
  (['U', 'A', 'R', 'T'], 1, PMode.bracket),
  (['V', 'o', 'l', 't', 'a', 'g', 'e'], 2, PMode.bracket),
  (['U', '_', 'b', 'a', 't'], 3, PMode.number),
  (['U', '_', 's', 'r', 'c'], 4, PMode.number),
  (['C', 'u', 'r', 'r', 'e', 'n', 't'], 5, PMode.bracket),
  (['I', '_', 'c', 'r', 'g'], 6, PMode.number),
  (['I', '_', 'c', 'h', '1'], 7, PMode.number),
  (['I', '_', 'c', 'h', '2'], 8, PMode.number),
  (['C', 'h', 'a', 'r', 'g', 'e', 'r'], 9, PMode.bracket),
  (['M', '_', 's', 'e', 'n', 's'], 10, PMode.bracket),
  (['L', '_', 's', 'e', 'n', 's'], 11, PMode.bracket)]

/-- One rule application to one line, as the inner loop of `_parse_frame`:
when the label occurs in the line, the column color is set from the row
color (even when the value pattern then fails), and the value is set when
the bracket or number pattern matches. -/
def applyRule (cm : Option (List (List Str))) (rowIdx : Nat) (ln : Str)
    (acc : List Str × List Str) (rule : Str × Nat × PMode) : List Str × List Str :=
  let label := rule.1
  let col := rule.2.1
  if containsSub label ln then
    let cols2 := acc.2.set col (excelColorFromHex (rowHexColor cm rowIdx))
    match rule.2.2 with
    | PMode.bracket =>
      match firstBracket ln with
      | some content => (acc.1.set col (stripPy content), cols2)
      | none => (acc.1, cols2)
    | PMode.number =>
      match findLabelNum label ln with
      | some num => (acc.1.set col (stripPy num), cols2)
      | none => (acc.1, cols2)
  else acc

/-- logger.py `_parse_frame`: the 12 field values and their Excel colors
extracted from the frame lines.  Scan order is top to bottom; a later line
matching the same label overwrites the earlier value (last match wins). -/
def parseFrame (lines : List Str) (cm : Option (List (List Str))) :
    List Str × List Str :=
  let plain := lines.map stripAnsi
  let init : List Str × List Str := (List.replicate 12 [], List.replicate 12 black6)
  let afterId :=
    match findFirstId plain 0 with
    | some (row, hx) =>
      (init.1.set 0 (upperPy hx), init.2.set 0 (excelColorFromHex (rowHexColor cm row)))
    | none => init
  plain.enum.foldl
    (fun acc p =>
      if (stripPy p.2).isEmpty then acc
      else rulesFixture.foldl (applyRule cm p.1 p.2) acc)
    afterId

/-- One data row of the spreadsheet: the 12 values paired with their font
colors, as appended by save_block. -/
abbrev Row := List (Str × Str)

/-- Observable state of the two log files kept by MPPTLogger: the session
dedupe scalar `last_passed_id`, the text log blocks, and the data rows of
the main sheet and of the PASSED sheet. -/
structure LogState where
  lastPassedId : Option Str
  txt : List (List Str)
  sheetRows : List Row
  passedRows : List Row
deriving DecidableEq

/-- The `_set_status` call sites inside save_block, as message tags. -/
inductive StatusMsg
  | noBlock
  | passedWithoutId
  | excelLocked
  | savedPassed (row : Nat)
  | savedMain (row : Nat)
deriving DecidableEq

/-- The persist tail of save_block: append the text-log block (always,
first), then append one row to the target sheet and save the workbook;
when the file is locked the workbook on disk is unchanged and a
recoverable status is emitted. -/
def persistBlock (st : LogState) (toPassed : Bool) (locked : Bool)
    (plain : List Str) (values colors : List Str) : LogState × List StatusMsg :=
  let st1 : LogState := { st with txt := st.txt ++ [plain.map rstripPy] }
  let row : Row := values.zip colors
  let rowIdx := (if toPassed then st1.passedRows.length else st1.sheetRows.length) + 2
  if locked then (st1, [StatusMsg.excelLocked])
  else if toPassed then
    ({ st1 with passedRows := st1.passedRows ++ [row] }, [StatusMsg.savedPassed rowIdx])
  else
    ({ st1 with sheetRows := st1.sheetRows ++ [row] }, [StatusMsg.savedMain rowIdx])

/-- logger.py MPPTLogger.save_block (lines 280-381).  Decision logic: in
auto mode nothing is written unless a PASSED marker is present, the
current id (the short_id override when given, otherwise the parsed ID
field) is non-empty, and the id differs from `last_passed_id`; the dedupe
scalar is updated before the text log and workbook writes.  In manual mode
the block always goes to the text log and to the PASSED sheet when a
PASSED marker is present, otherwise to the main sheet. -/
def saveBlock (st : LogState) (locked : Bool) (lines : List Str)
    (colorMatrix : Option (List (List Str))) (shortId : Option Str) (auto : Bool) :
    LogState × List StatusMsg :=
  if lines.isEmpty then (st, [StatusMsg.noBlock])
  else
    let plain := lines.map stripAnsi
    let isPassed := hasPassedIn plain
    let vc := parseFrame lines colorMatrix
    let vc2 :=
      match shortId with
      | some sid => if sid.isEmpty then vc else (vc.1.set 0 (upperPy sid), vc.2.set 0 black6)
      | none => vc
    let curId := stripPy (vc2.1.headD [])
    if auto then
      if !isPassed then (st, [])
      else if curId.isEmpty then (st, [StatusMsg.passedWithoutId])
      else if st.lastPassedId = some curId then (st, [])
      else persistBlock { st with lastPassedId := some curId } true locked plain vc2.1 vc2.2
    else
      persistBlock st isPassed locked plain vc2.1 vc2.2


/-! ## Screen Differ / Renderer (mppt/terminal_canvas.py, CanvasTerminal.render_diff)

The pyte screen buffer is a dictionary of rows, each a dictionary of cells;
`buf.get(r, {}).get(c)` is modelled by a function returning an optional
cell.  The caches `last_chars` and `last_colors` are the row lists of the
canvas; the invariant established in the constructor is that both are
`rows` lists of `cols` entries, and the loops run over exactly those
indexes, so the iteration is driven by the cache lists.  An itemconfig call
on the text item of a cell is recorded as one update effect. -/

/-- One pyte character cell: its text and foreground color name. -/
structure PCell where
  data : Str
  fg : Str

/-- The color name default of the pyte color table. -/
def defaultName : Str := ['d', 'e', 'f', 'a', 'u', 'l', 't']

/-- The fallback hex color of render_diff. -/
def defaultHexFallback : Str := ['#', 'e', '8', 'e', 'a', 'e', 'd']

/-- render_diff `default_color = PYTE_FG_TO_HEX.get("default", "#e8eaed")`. -/
def renderDefaultColor : Str := dictGet pyteFgToHex defaultName defaultHexFallback

/-- The character and fill color drawn for one screen cell: a missing cell
is a space in the default color, a falsy `cell.data` becomes a space, a NUL
character becomes a space, a falsy `cell.fg` becomes default, and unknown
color names fall back to the default color. -/
def cellView (oc : Option PCell) : Str × Str :=
  let p :=
    match oc with
    | none => ([' '], defaultName)
    | some cell =>
      (if cell.data.isEmpty then [' '] else cell.data,
       if cell.fg.isEmpty then defaultName else cell.fg)
  let ch := if p.1 = ['\x00'] then [' '] else p.1
  (ch, dictGet pyteFgToHex p.2 renderDefaultColor)

/-- One cell-update side effect: `canvas.itemconfig(items[row][col],
text := ch, fill := fg)`. -/
structure CellUpd where
  row : Nat
  col : Nat
  ch : Str
  fg : Str
deriving DecidableEq

/-- Inner column loop of render_diff over one row: cells whose computed
view equals the cached values are left untouched; changed cells yield one
update effect and the cache entries are overwritten. -/
def diffRow (compute : Nat → Str × Str) (r : Nat) : Nat → List Str → List Str →
    List Str × List Str × List CellUpd
  | _, [], _ => ([], [], [])
  | _, _ :: _, [] => ([], [], [])
  | c, och :: chs, ofg :: fgs =>
    let v := compute c
    let rest := diffRow compute r (c + 1) chs fgs
    if v.1 = och ∧ v.2 = ofg then (och :: rest.1, ofg :: rest.2.1, rest.2.2)
    else (v.1 :: rest.1, v.2 :: rest.2.1, ⟨r, c, v.1, v.2⟩ :: rest.2.2)

/-- Outer row loop of render_diff. -/
def diffRows (screen : Nat → Nat → Option PCell) : Nat → List (List Str) → List (List Str) →
    List (List Str) × List (List Str) × List CellUpd
  | _, [], _ => ([], [], [])
  | _, _ :: _, [] => ([], [], [])
  | r, chRow :: chRest, fgRow :: fgRest =>
    let row := diffRow (fun c => cellView (screen r c)) r 0 chRow fgRow
    let rest := diffRows screen (r + 1) chRest fgRest
    (row.1 :: rest.1, row.2.1 :: rest.2.1, row.2.2 ++ rest.2.2)

/-- CanvasTerminal.render_diff: returns the new `last_chars`, the new
`last_colors`, and the list of cell updates performed, in order. -/
def renderDiff (screen : Nat → Nat → Option PCell) (lastChars lastColors : List (List Str)) :
    List (List Str) × List (List Str) × List CellUpd :=
  diffRows screen 0 lastChars lastColors

/-! ## Lemmas and claim theorems -/

theorem readerFeed_of_none (fb buf : Str) (h : findSub escClear buf = none) :
    readerFeed fb buf = ([], fb ++ buf) := by
  rw [readerFeed]
  simp [h]

theorem readerFeed_of_some (fb buf : Str) (i : Nat) (h : findSub escClear buf = some i) :
    readerFeed fb buf =
      ((if (fb ++ buf.take i).isEmpty then [] else [fb ++ buf.take i]) ++
         (readerFeed escClear (buf.drop (i + 4))).1,
       (readerFeed escClear (buf.drop (i + 4))).2) := by
  rw [readerFeed]
  simp [h]

theorem pfx_iff (p : Str) : ∀ l : Str, p.isPrefixOf l = true ↔ ∃ r, l = p ++ r := by
  induction p with
  | nil =>
    intro l
    simp [List.isPrefixOf]
  | cons a as ih =>
    intro l
    cases l with
    | nil =>
      constructor
      · intro h
        simp [List.isPrefixOf] at h
      · rintro ⟨r, hr⟩
        simp at hr
    | cons b bs =>
      simp only [List.isPrefixOf, Bool.and_eq_true, beq_iff_eq, ih bs]
      constructor
      · rintro ⟨hab, r, hr⟩
        exact ⟨r, by simp [hab, hr]⟩
      · rintro ⟨r, hr⟩
        injection hr with h1 h2
        exact ⟨h1.symm, r, h2⟩

theorem pfx_append_of_le (b : Str) : ∀ (p x : Str), p.length ≤ x.length →
    p.isPrefixOf (x ++ b) = p.isPrefixOf x := by
  intro p
  induction p with
  | nil =>
    intro x hx
    simp [List.isPrefixOf]
  | cons a as ih =>
    intro x hx
    cases x with
    | nil => simp at hx
    | cons c cs =>
      simp only [List.cons_append, List.isPrefixOf, List.append_eq]
      rw [ih cs (by simpa using hx)]

theorem findSub_bound : ∀ (l : Str) (i : Nat), findSub escClear l = some i →
    i + 4 ≤ l.length := by
  intro l
  induction l with
  | nil =>
    intro i h
    simp [findSub, List.isPrefixOf, escClear] at h
  | cons c rest ih =>
    intro i h
    rw [findSub] at h
    by_cases hp : escClear.isPrefixOf (c :: rest) = true
    · rw [if_pos hp] at h
      injection h with h
      obtain ⟨r, hr⟩ := (pfx_iff escClear (c :: rest)).mp hp
      have hlen2 : (c :: rest).length = escClear.length + r.length := by
        rw [hr]; simp
      simp [escClear] at hlen2
      simp only [List.length_cons]
      omega
    · rw [if_neg hp] at h
      simp only [Option.map_eq_some'] at h
      obtain ⟨i', hi', rfl⟩ := h
      have := ih i' hi'
      simp only [List.length_cons]
      omega

theorem findSub_append_some (b : Str) : ∀ (a : Str) (i : Nat),
    findSub escClear a = some i → findSub escClear (a ++ b) = some i := by
  intro a
  induction a with
  | nil =>
    intro i h
    simp [findSub, List.isPrefixOf, escClear] at h
  | cons c rest ih =>
    intro i h
    rw [findSub] at h
    by_cases hp : escClear.isPrefixOf (c :: rest) = true
    · rw [if_pos hp] at h
      obtain ⟨r, hr⟩ := (pfx_iff escClear (c :: rest)).mp hp
      have hp2 : escClear.isPrefixOf ((c :: rest) ++ b) = true := by
        apply (pfx_iff escClear _).mpr
        exact ⟨r ++ b, by rw [hr, List.append_assoc]⟩
      rw [List.cons_append, findSub, ← List.cons_append, hp2]
      simpa using h
    · rw [if_neg hp] at h
      simp only [Option.map_eq_some'] at h
      obtain ⟨i', hi', rfl⟩ := h
      have hlen : 4 ≤ rest.length := by
        have := findSub_bound rest i' hi'
        omega
      have hp2 : escClear.isPrefixOf ((c :: rest) ++ b) = false := by
        rw [pfx_append_of_le b escClear (c :: rest)
          (by simp [escClear]; omega)]
        exact (Bool.not_eq_true _) ▸ hp
      rw [List.cons_append, findSub, ← List.cons_append, hp2]
      rw [ih i' hi']
      simp

theorem spanFree_drop (a b : Str) (k : Nat) (h : SpanFree a b) : SpanFree (a.drop k) b := by
  intro i hi hlen
  rw [List.drop_drop]
  have hik : i < a.length - k := by simpa using hi
  have hik2 : a.length - k < i + 4 := by simpa using hlen
  apply h (k + i)
  · omega
  · omega

theorem findSub_append_none (b : Str) (hb : findSub escClear b = none) : ∀ (a : Str),
    findSub escClear a = none → SpanFree a b → findSub escClear (a ++ b) = none := by
  intro a
  induction a with
  | nil =>
    intro _ _
    simpa using hb
  | cons c rest ih =>
    intro ha hsf
    rw [findSub] at ha
    by_cases hp : escClear.isPrefixOf (c :: rest) = true
    · rw [if_pos hp] at ha
      exact absurd ha (by simp)
    · rw [if_neg hp] at ha
      have harest : findSub escClear rest = none := by
        rcases h : findSub escClear rest with _ | i
        · rfl
        · rw [h] at ha
          simp at ha
      have hp2 : escClear.isPrefixOf ((c :: rest) ++ b) = false := by
        by_cases hlen : 4 ≤ rest.length + 1
        · rw [pfx_append_of_le b escClear (c :: rest)
            (by simp [escClear]; omega)]
          exact (Bool.not_eq_true _) ▸ hp
        · have h0 := hsf 0 (by simp) (by simp only [List.length_cons]; omega)
          simp only [List.drop_zero] at h0
          exact h0
      rw [List.cons_append, findSub, ← List.cons_append, hp2]
      rw [ih harest (by simpa using spanFree_drop (c :: rest) b 1 hsf)]
      simp

theorem findSub_append_found (b : Str) (j : Nat) (hb : findSub escClear b = some j) :
    ∀ (a : Str), findSub escClear a = none → SpanFree a b →
    findSub escClear (a ++ b) = some (a.length + j) := by
  intro a
  induction a with
  | nil =>
    intro _ _
    simpa using hb
  | cons c rest ih =>
    intro ha hsf
    rw [findSub] at ha
    by_cases hp : escClear.isPrefixOf (c :: rest) = true
    · rw [if_pos hp] at ha
      exact absurd ha (by simp)
    · rw [if_neg hp] at ha
      have harest : findSub escClear rest = none := by
        rcases h : findSub escClear rest with _ | i
        · rfl
        · rw [h] at ha
          simp at ha
      have hp2 : escClear.isPrefixOf ((c :: rest) ++ b) = false := by
        by_cases hlen : 4 ≤ rest.length + 1
        · rw [pfx_append_of_le b escClear (c :: rest)
            (by simp [escClear]; omega)]
          exact (Bool.not_eq_true _) ▸ hp
        · have h0 := hsf 0 (by simp) (by simp only [List.length_cons]; omega)
          simp only [List.drop_zero] at h0
          exact h0
      rw [List.cons_append, findSub, ← List.cons_append, hp2]
      rw [ih harest (by simpa using spanFree_drop (c :: rest) b 1 hsf)]
      simp
      omega

theorem readerFeed_append_aux (b : Str) : ∀ (n : Nat) (a fb : Str), a.length ≤ n →
    SpanFree a b →
    readerFeed fb (a ++ b) =
      ((readerFeed fb a).1 ++ (readerFeed (readerFeed fb a).2 b).1,
       (readerFeed (readerFeed fb a).2 b).2) := by
  intro n
  induction n with
  | zero =>
    intro a fb hlen hsf
    have ha : a = [] := by
      cases a with
      | nil => rfl
      | cons c rest => simp at hlen
    subst ha
    rw [readerFeed_of_none fb [] (by simp [findSub, List.isPrefixOf, escClear])]
    simp
  | succ n ih =>
    intro a fb hlen hsf
    rcases h1 : findSub escClear a with _ | i
    · -- no marker inside a
      rcases h2 : findSub escClear b with _ | j
      · rw [readerFeed_of_none fb (a ++ b) (findSub_append_none b h2 a h1 hsf)]
        rw [readerFeed_of_none fb a h1]
        rw [readerFeed_of_none (fb ++ a) b h2]
        simp
      · rw [readerFeed_of_some fb (a ++ b) (a.length + j)
          (findSub_append_found b j h2 a h1 hsf)]
        rw [readerFeed_of_none fb a h1]
        rw [readerFeed_of_some (fb ++ a) b j h2]
        have ht : (a ++ b).take (a.length + j) = a ++ b.take j := List.take_append j
        have hd : (a ++ b).drop (a.length + j + 4) = b.drop (j + 4) := by
          rw [Nat.add_assoc]
          exact List.drop_append (j + 4)
        rw [ht, hd]
        simp [List.append_assoc]
    · -- leftmost marker inside a
      have hbound := findSub_bound a i h1
      rw [readerFeed_of_some fb (a ++ b) i (findSub_append_some b a i h1)]
      rw [readerFeed_of_some fb a i h1]
      have ht : (a ++ b).take i = a.take i :=
        List.take_append_of_le_length (by omega)
      have hd : (a ++ b).drop (i + 4) = a.drop (i + 4) ++ b :=
        List.drop_append_of_le_length (by omega)
      rw [ht, hd]
      rw [ih (a.drop (i + 4)) escClear (by simp; omega) (spanFree_drop a b (i + 4) hsf)]
      simp [List.append_assoc]

theorem readerFeed_append (a b fb : Str) (hsf : SpanFree a b) :
    readerFeed fb (a ++ b) =
      ((readerFeed fb a).1 ++ (readerFeed (readerFeed fb a).2 b).1,
       (readerFeed (readerFeed fb a).2 b).2) :=
  readerFeed_append_aux b a.length a fb le_rfl hsf

theorem spanFreeB_iff (a b : Str) : spanFreeB a b = true ↔ SpanFree a b := by
  unfold spanFreeB SpanFree
  rw [List.all_eq_true]
  constructor
  · intro h i hi hlen
    have := h i (by simpa using hi)
    rw [if_pos hlen] at this
    simpa using this
  · intro h i hi
    simp only [List.mem_range] at hi
    by_cases hlen : a.length < i + 4
    · rw [if_pos hlen]
      simpa using h i hi hlen
    · rw [if_neg hlen]

theorem readerFeed_frames_nonempty_aux : ∀ (n : Nat) (buf fb : Str), buf.length ≤ n →
    ((readerFeed fb buf).1.all fun f => !f.isEmpty) = true := by
  intro n
  induction n with
  | zero =>
    intro buf fb hlen
    have hb : buf = [] := by
      cases buf with
      | nil => rfl
      | cons c rest => simp at hlen
    subst hb
    rw [readerFeed_of_none _ _ (by decide)]
    simp
  | succ n ih =>
    intro buf fb hlen
    rcases h : findSub escClear buf with _ | i
    · rw [readerFeed_of_none _ _ h]
      simp
    · have hbound := findSub_bound buf i h
      rw [readerFeed_of_some _ _ i h]
      simp only [List.all_append, Bool.and_eq_true]
      constructor
      · by_cases he : (fb ++ buf.take i).isEmpty = true
        · rw [if_pos he]
          simp
        · rw [if_neg he]
          simp only [List.all_cons, List.all_nil, Bool.and_true]
          simpa using he
      · exact ih (buf.drop (i + 4)) escClear (by simp; omega)

/-- C4 counterexample: a split that falls in the middle of the clear-screen
marker byte sequence changes the emitted frame sequence.  Feeding the stream
a ESC [ 2 J b as one chunk emits the frame a, while feeding it as the two
chunks (a ESC) and ([ 2 J b) emits nothing, because the marker spanning the
cut is never recognised. -/
theorem claim_C4_counterexample :
    (readerFeedMany [] [['a', '\x1b'], ['[', '2', 'J', 'b']]).1 ≠
      (readerFeed [] (['a', '\x1b'] ++ ['[', '2', 'J', 'b'])).1 := by
  have e1 : readerFeed ([] : Str) ['a', '\x1b'] = ([], ['a', '\x1b']) := by
    rw [readerFeed_of_none _ _ (by decide)]
    decide
  have e2 : readerFeed ['a', '\x1b'] ['[', '2', 'J', 'b'] =
      ([], ['a', '\x1b', '[', '2', 'J', 'b']) := by
    rw [readerFeed_of_none _ _ (by decide)]
    decide
  have e3 : readerFeedMany ([] : Str) [['a', '\x1b'], ['[', '2', 'J', 'b']] =
      ([], ['a', '\x1b', '[', '2', 'J', 'b']) := by
    simp only [readerFeedMany, e1, e2]
    decide
  have hcat : (['a', '\x1b'] ++ ['[', '2', 'J', 'b'] : Str) =
      ['a', '\x1b', '[', '2', 'J', 'b'] := rfl
  have e4 : readerFeed ([] : Str) ['a', '\x1b', '[', '2', 'J', 'b'] =
      ([['a']], ['\x1b', '[', '2', 'J', 'b']) := by
    rw [readerFeed_of_some _ _ 1 (by decide)]
    rw [show List.drop (1 + 4) (['a', '\x1b', '[', '2', 'J', 'b'] : Str) = ['b'] from by decide]
    rw [readerFeed_of_none _ _ (by decide)]
    decide
  rw [e3, hcat, e4]
  decide

/-- C4 amended: feeding the Frame Splitter a decoded text stream in a single
call produces the identical sequence of emitted frames (and the identical
final frame buffer) as feeding the same stream split across many smaller
calls, provided no cut between two consecutive chunks falls strictly inside
an occurrence of the clear-screen marker.  Splits inside a marker are missed
by the code, as the counterexample shows. -/
theorem claim_C4_amended (fb : Str) (chunks : List Str) (h : cutsOkB chunks = true) :
    readerFeedMany fb chunks = readerFeed fb chunks.join := by
  induction chunks generalizing fb with
  | nil =>
    rw [show (List.join ([] : List Str)) = ([] : Str) from rfl]
    rw [readerFeed_of_none _ _ (by decide)]
    simp [readerFeedMany]
  | cons c cs ih =>
    simp only [cutsOkB, Bool.and_eq_true] at h
    rw [show (c :: cs).join = c ++ cs.join from rfl]
    rw [readerFeed_append c cs.join fb ((spanFreeB_iff _ _).mp h.1)]
    rw [← ih ((readerFeed fb c).2) h.2]
    simp [readerFeedMany]

/-- C4 witness: a concrete two-chunk split whose cut does not fall inside a
marker, on which the split feed and the single feed agree. -/
theorem claim_C4_amended_witness :
    cutsOkB [['a', '\x1b', '[', '2', 'J'], ['b']] = true ∧
      readerFeedMany [] [['a', '\x1b', '[', '2', 'J'], ['b']] =
        readerFeed [] ([['a', '\x1b', '[', '2', 'J'], ['b']] : List Str).join :=
  ⟨by decide, claim_C4_amended [] [['a', '\x1b', '[', '2', 'J'], ['b']] (by decide)⟩

/-- C3 counterexample: a stream consisting of exactly two consecutive
clear-screen markers with nothing between them makes the Frame Splitter emit
one frame (consisting of the marker alone), not zero frames: the buffer is
reseeded with the marker itself, so the emptiness test of the code never
sees an empty buffer after the first marker. -/
theorem claim_C3_counterexample :
    (readerFeed [] (escClear ++ escClear)).1 ≠ [] := by
  have e : readerFeed [] (escClear ++ escClear) = ([escClear], escClear) := by
    rw [readerFeed_of_some _ _ 0 (by decide)]
    rw [show (escClear ++ escClear).drop (0 + 4) = escClear from by decide]
    rw [readerFeed_of_some _ _ 0 (by decide)]
    rw [show escClear.drop (0 + 4) = ([] : Str) from by decide]
    rw [readerFeed_of_none _ _ (by decide)]
    decide
  rw [e]
  decide

/-- C3 amended: two consecutive clear-screen markers emit exactly one frame,
namely the marker itself; and the splitter never emits an empty frame, since
a frame is emitted only when the frame buffer (which includes the seeding
marker) is non-empty. -/
theorem claim_C3_amended :
    (readerFeed [] (escClear ++ escClear)).1 = [escClear] ∧
      ∀ (fb buf : Str), ((readerFeed fb buf).1.all fun f => !f.isEmpty) = true := by
  constructor
  · rw [readerFeed_of_some _ _ 0 (by decide)]
    rw [show (escClear ++ escClear).drop (0 + 4) = escClear from by decide]
    rw [readerFeed_of_some _ _ 0 (by decide)]
    rw [show escClear.drop (0 + 4) = ([] : Str) from by decide]
    rw [readerFeed_of_none _ _ (by decide)]
    decide
  · intro fb buf
    exact readerFeed_frames_nonempty_aux buf.length buf fb le_rfl

/-- C5: contrary to the specification, text that arrives before the very
first clear-screen marker is not discarded by the reader loop: when the
first marker arrives, the buffered prefix (here the text hello) is passed to
the frame processor as a frame of its own, even though it does not start
with the marker, contradicting the documented contract of
_process_full_frame that every processed frame starts with ESC[2J. -/
theorem claim_C5_divergence :
    readerFeed [] (['h', 'e', 'l', 'l', 'o'] ++ escClear) =
      ([['h', 'e', 'l', 'l', 'o']], escClear) := by
  rw [readerFeed_of_some _ _ 5 (by decide)]
  rw [show (['h', 'e', 'l', 'l', 'o'] ++ escClear).drop (5 + 4) = ([] : Str) from by decide]
  rw [readerFeed_of_none _ _ (by decide)]
  decide

theorem grpSplit_spec (v g r : Str) (h : grpSplit v = some (g, r)) :
    v = g ++ r ∧ g.isEmpty = false := by
  simp only [grpSplit] at h
  split at h
  · exact absurd h (by simp)
  case _ hne =>
    injection h with h
    injection h with h1 h2
    constructor
    · rw [← h1, ← h2]
      exact (List.takeWhile_append_dropWhile _ _).symm
    · rw [← h1]
      exact (Bool.not_eq_true _) ▸ hne

theorem matchG_spec (v g : Str) (h : matchG v = some g) :
    (∃ rest, v = g ++ rest) ∧ 7 ≤ g.length := by
  simp only [matchG] at h
  split at h
  case _ g1 v2 heq1 =>
    split at h
    case _ g2 v3 heq2 =>
      split at h
      case _ g3 v4 heq3 =>
        split at h
        case _ g4 r4 heq4 =>
          injection h with h
          obtain ⟨hv1, hg1⟩ := grpSplit_spec _ _ _ heq1
          obtain ⟨hv2, hg2⟩ := grpSplit_spec _ _ _ heq2
          obtain ⟨hv3, hg3⟩ := grpSplit_spec _ _ _ heq3
          obtain ⟨hv4, hg4⟩ := grpSplit_spec _ _ _ heq4
          have hg1l : 1 ≤ g1.length := by
            cases g1 with
            | nil => simp at hg1
            | cons a b => simp
          have hg2l : 1 ≤ g2.length := by
            cases g2 with
            | nil => simp at hg2
            | cons a b => simp
          have hg3l : 1 ≤ g3.length := by
            cases g3 with
            | nil => simp at hg3
            | cons a b => simp
          have hg4l : 1 ≤ g4.length := by
            cases g4 with
            | nil => simp at hg4
            | cons a b => simp
          constructor
          · refine ⟨r4, ?_⟩
            rw [hv1, hv2, hv3, hv4, ← h]
            simp [List.append_assoc]
          · rw [← h]
            simp [List.length_append]
            omega
        · exact absurd h (by simp)
      · exact absurd h (by simp)
    · exact absurd h (by simp)
  · exact absurd h (by simp)

theorem tryFromK_matchG (u : Str) : ∀ (k k' : Nat) (g : Str),
    tryFromK u k = some (k', g) → matchG (u.drop k') = some g := by
  intro k
  induction k with
  | zero =>
    intro k' g h
    simp only [tryFromK, Option.map_eq_some'] at h
    obtain ⟨g', hg', h⟩ := h
    injection h with h1 h2
    subst h1
    subst h2
    simpa using hg'
  | succ k ih =>
    intro k' g h
    simp only [tryFromK] at h
    split at h
    case _ g0 heq =>
      injection h with h
      injection h with h1 h2
      subst h1
      subst h2
      exact heq
    · exact ih k' g h

theorem uidMatchAt_spec (t : Str) (len : Nat) (g : Str) (h : uidMatchAt t = some (len, g)) :
    11 ≤ len ∧ len ≤ t.length ∧ 7 ≤ g.length := by
  simp only [uidMatchAt] at h
  split at h
  case _ hpfx =>
    split at h
    case _ k g0 heq =>
      injection h with h
      injection h with h1 h2
      have hmg := tryFromK_matchG _ _ _ _ heq
      obtain ⟨⟨rest, hrest⟩, h7⟩ := matchG_spec _ _ hmg
      obtain ⟨r, hr⟩ := (pfx_iff esc0m t).mp hpfx
      have htlen : t.length = 4 + r.length := by
        rw [hr]
        simp only [List.length_append, esc0m, List.length_cons, List.length_nil]
      have hlencongr := congrArg List.length hrest
      simp only [List.length_drop, List.length_append] at hlencongr
      have hgg : g.length = g0.length := by rw [← h2]
      refine ⟨by omega, by omega, by omega⟩
    · exact absurd h (by simp)
  · exact absurd h (by simp)

theorem uidSearchAux_spec : ∀ (t : Str) (i s e : Nat) (g : Str),
    uidSearchAux t i = some (s, e, g) →
    i ≤ s ∧ s - i ≤ t.length ∧
      ∃ len, uidMatchAt (t.drop (s - i)) = some (len, g) ∧ e = s + len := by
  intro t
  induction t with
  | nil =>
    intro i s e g h
    simp [uidSearchAux] at h
  | cons c rest ih =>
    intro i s e g h
    simp only [uidSearchAux] at h
    split at h
    case _ len g0 heq =>
      injection h with h
      injection h with h1 h
      injection h with h2 h3
      subst h1
      subst h2
      subst h3
      refine ⟨le_rfl, by simp, len, ?_, rfl⟩
      simpa using heq
    case _ heq =>
      obtain ⟨his, hst, len, hmatch, he⟩ := ih (i + 1) s e g h
      have hsi : 1 ≤ s - i := by omega
      refine ⟨by omega, by simp; omega, len, ?_, he⟩
      have hdrop : (c :: rest).drop (s - i) = rest.drop (s - (i + 1)) := by
        have h1 : s - i = (s - (i + 1)) + 1 := by omega
        rw [h1]
        simp
      rw [hdrop]
      exact hmatch

theorem uidSearch_spec (t : Str) (s e : Nat) (g : Str) (h : uidSearch t = some (s, e, g)) :
    s ≤ e ∧ e ≤ t.length ∧ 11 ≤ e - s ∧ 7 ≤ g.length := by
  obtain ⟨_, hst, len, hmatch, he⟩ := uidSearchAux_spec t 0 s e g h
  simp only [Nat.sub_zero] at hst hmatch
  obtain ⟨h11, hlen, h7⟩ := uidMatchAt_spec _ _ _ hmatch
  have hdl : (t.drop s).length = t.length - s := by simp [List.length_drop]
  exact ⟨by omega, by omega, by omega, h7⟩

/-- C6: whenever the Identity Masker matches a UID, the replacement text
ID:fingerprint, left-justified to the width of the matched span, occupies
exactly as many characters as the span it replaces, and therefore the
rewritten frame text has exactly the same total length as the original
frame, so the fixed-width grid alignment is unchanged. -/
theorem claim_C6_mask_width (termLines : Str → List Str) (cm : Option (List (List Str)))
    (frame : Str) (s e : Nat) (g : Str) (h : uidSearch frame = some (s, e, g)) :
    (ljustPy (idColon ++ fingerprint g) (e - s)).length = e - s ∧
      (processFullFrame termLines cm frame).maskedText.length = frame.length := by
  obtain ⟨hse, het, h11, h7⟩ := uidSearch_spec frame s e g h
  have hflen : (fingerprint g).length = 4 := by simp [fingerprint, hex4]
  have hid : (idColon ++ fingerprint g).length = 7 := by
    simp [idColon, hflen]
  have hlj : (ljustPy (idColon ++ fingerprint g) (e - s)).length = e - s := by
    have h3 : idColon.length = 3 := rfl
    simp only [ljustPy, List.length_append, List.length_replicate]
    omega
  refine ⟨hlj, ?_⟩
  have hmask : (processFullFrame termLines cm frame).maskedText =
      frame.take s ++ ljustPy (idColon ++ fingerprint g) (e - s) ++ frame.drop e := by
    simp [processFullFrame, h]
  rw [hmask]
  simp only [List.length_append, hlj, List.length_take, List.length_drop]
  omega

/-- C6 witness: the mask of the example frame ESC[0m followed by the
specification UID preserves the frame length. -/
theorem claim_C6_mask_width_witness :
    uidSearch (esc0m ++ uid7c) = some (0, 25, uid7c) ∧
      ((ljustPy (idColon ++ fingerprint uid7c) (25 - 0)).length = 25 - 0 ∧
        (processFullFrame (fun _ => ([] : List Str)) none (esc0m ++ uid7c)).maskedText.length =
          (esc0m ++ uid7c).length) :=
  ⟨by decide,
   claim_C6_mask_width (fun _ => ([] : List Str)) none (esc0m ++ uid7c) 0 25 uid7c (by decide)⟩

/-- C7: the Device Fingerprint is a pure function of the UID string equal
to the specification formula (low 16 bits of the CRC-32 of the ASCII bytes,
four zero-padded uppercase hex digits); on the two example UIDs of the
specification it yields E988 and D84A respectively, which differ; and it
always has exactly 4 characters. -/
theorem claim_C7_fingerprint :
    (∀ uid : Str, fingerprint uid = specFingerprint uid) ∧
      fingerprint uid7c = ['E', '9', '8', '8'] ∧
      fingerprint uid1a = ['D', '8', '4', 'A'] ∧
      fingerprint uid7c ≠ fingerprint uid1a ∧
      ∀ uid : Str, (fingerprint uid).length = 4 := by
  refine ⟨?_, by decide, by decide, by decide, ?_⟩
  · intro uid
    unfold fingerprint specFingerprint
    congr 1
    rw [show (0xFFFF : Nat) = 2 ^ 16 - 1 from by norm_num,
      Nat.and_pow_two_sub_one_eq_mod]
  · intro uid
    simp [fingerprint, hex4]

/-- C8: when no UID pattern is found in a frame, the device short id is
cleared (set to none) rather than kept, and the save call issued for that
frame (when a PASSED marker is visible) carries no fingerprint override. -/
theorem claim_C8_uid_absent_clears (termLines : Str → List Str)
    (cm : Option (List (List Str))) (frame : Str) (h : uidSearch frame = none) :
    (processFullFrame termLines cm frame).deviceShortId = none ∧
      ∀ sc, (processFullFrame termLines cm frame).save = some sc → sc.shortId = none := by
  constructor
  · simp [processFullFrame, h]
  · intro sc hsc
    simp only [processFullFrame, h] at hsc
    split at hsc
    · injection hsc with h1
      rw [← h1]
    · exact absurd hsc (by simp)

/-- C8 witness: a frame with no UID, whose screen shows PASSED, produces a
save call whose fingerprint override is absent. -/
theorem claim_C8_witness :
    uidSearch ['h', 'i'] = none ∧
      ((processFullFrame (fun _ => [passedStr]) none ['h', 'i']).deviceShortId = none ∧
        ∀ sc, (processFullFrame (fun _ => [passedStr]) none ['h', 'i']).save = some sc →
          sc.shortId = none) :=
  ⟨by decide,
   claim_C8_uid_absent_clears (fun _ => [passedStr]) none ['h', 'i'] (by decide)⟩

theorem foldl_preserve {α β : Type} (P : α → Prop) (f : α → β → α)
    (hstep : ∀ a b, P a → P (f a b)) :
    ∀ (l : List β) (a : α), P a → P (l.foldl f a) := by
  intro l
  induction l with
  | nil => intro a ha; exact ha
  | cons x xs ih =>
    intro a ha
    exact ih (f a x) (hstep a x ha)

theorem applyRule_length (cm : Option (List (List Str))) (rowIdx : Nat) (ln : Str)
    (acc : List Str × List Str) (rule : Str × Nat × PMode)
    (h : acc.1.length = 12 ∧ acc.2.length = 12) :
    (applyRule cm rowIdx ln acc rule).1.length = 12 ∧
      (applyRule cm rowIdx ln acc rule).2.length = 12 := by
  unfold applyRule
  cases hc : containsSub rule.1 ln with
  | false =>
    simp only [hc, Bool.false_eq_true, if_false]
    exact h
  | true =>
    simp only [hc, if_true]
    split
    · split
      · simp [List.length_set, h.1, h.2]
      · simp [List.length_set, h.1, h.2]
    · split
      · simp [List.length_set, h.1, h.2]
      · simp [List.length_set, h.1, h.2]

theorem parseFrame_length (lines : List Str) (cm : Option (List (List Str))) :
    (parseFrame lines cm).1.length = 12 ∧ (parseFrame lines cm).2.length = 12 := by
  simp only [parseFrame]
  refine foldl_preserve
    (fun vc : List Str × List Str => vc.1.length = 12 ∧ vc.2.length = 12) _ ?_ _ _ ?_
  · intro a b hab
    split
    · exact hab
    · exact foldl_preserve _ _ (fun a' b' h' => applyRule_length cm b.1 b.2 a' b' h') _ _ hab
  · split
    · simp [List.length_set]
    · simp

theorem headD_set_zero (l : List Str) (x : Str) (hne : l ≠ []) :
    (l.set 0 x).headD ([] : Str) = x := by
  cases l with
  | nil => exact absurd rfl hne
  | cons a as => rfl

theorem persistBlock_lastPassedId (st : LogState) (toPassed locked : Bool)
    (plain values colors : List Str) :
    (persistBlock st toPassed locked plain values colors).1.lastPassedId = st.lastPassedId := by
  simp only [persistBlock]
  repeat' split
  all_goals rfl

theorem saveBlock_auto_known (st : LogState) (locked : Bool) (lines : List Str)
    (cm : Option (List (List Str))) (fp : Str)
    (hl : lines.isEmpty = false) (hp : hasPassedIn (lines.map stripAnsi) = true)
    (hfp : fp.isEmpty = false) (hid : (stripPy (upperPy fp)).isEmpty = false) :
    saveBlock st locked lines cm (some fp) true =
      if st.lastPassedId = some (stripPy (upperPy fp)) then (st, [])
      else
        persistBlock { st with lastPassedId := some (stripPy (upperPy fp)) } true locked
          (lines.map stripAnsi)
          ((parseFrame lines cm).1.set 0 (upperPy fp))
          ((parseFrame lines cm).2.set 0 black6) := by
  have hvne : (parseFrame lines cm).1 ≠ [] := by
    intro h0
    have := (parseFrame_length lines cm).1
    rw [h0] at this
    simp at this
  have hhead : (((parseFrame lines cm).1).set 0 (upperPy fp)).headD ([] : Str) = upperPy fp :=
    headD_set_zero _ _ hvne
  simp only [saveBlock, hl, hp, hfp, hhead, Bool.false_eq_true, if_false, Bool.not_true, if_true, hid]

theorem saveBlock_manual_passed (st : LogState) (lines : List Str)
    (cm : Option (List (List Str))) (sid : Option Str)
    (hl : lines.isEmpty = false) (hp : hasPassedIn (lines.map stripAnsi) = true) :
    (saveBlock st false lines cm sid false).1.passedRows.length = st.passedRows.length + 1 ∧
      (saveBlock st false lines cm sid false).1.txt =
        st.txt ++ [(lines.map stripAnsi).map rstripPy] := by
  cases sid with
  | none =>
    simp only [saveBlock, hl, hp, Bool.false_eq_true, if_false]
    simp [persistBlock]
  | some s =>
    by_cases hs : s.isEmpty = true
    · simp only [saveBlock, hl, hp, hs, Bool.false_eq_true, if_false, if_true]
      simp [persistBlock]
    · simp only [saveBlock, hl, hp, Bool.false_eq_true, if_false,
        (Bool.not_eq_true _) ▸ hs]
      simp [persistBlock]

/-- C1: in auto mode, once a PASSED frame with a known fingerprint has been
saved, a second auto-triggered PASSED save with the same fingerprint is a
complete no-op (state unchanged, no text block, no row, no status), and a
subsequent auto-triggered PASSED save with a different known fingerprint is
recorded: the text log gains one block, the PASSED sheet gains one row, the
main sheet is untouched, and the last-recorded fingerprint becomes the new
one. -/
theorem claim_C1_dedupe_gate
    (st : LogState) (locked1 locked2 : Bool)
    (l1 l2 l3 : List Str) (cm1 cm2 cm3 : Option (List (List Str))) (fp fp2 : Str)
    (hl1 : l1.isEmpty = false) (hp1 : hasPassedIn (l1.map stripAnsi) = true)
    (hl2 : l2.isEmpty = false) (hp2 : hasPassedIn (l2.map stripAnsi) = true)
    (hl3 : l3.isEmpty = false) (hp3 : hasPassedIn (l3.map stripAnsi) = true)
    (hfp : fp.isEmpty = false) (hid : (stripPy (upperPy fp)).isEmpty = false)
    (hfp2 : fp2.isEmpty = false) (hid2 : (stripPy (upperPy fp2)).isEmpty = false)
    (hdiff : stripPy (upperPy fp2) ≠ stripPy (upperPy fp)) :
    saveBlock (saveBlock st locked1 l1 cm1 (some fp) true).1 locked2 l2 cm2 (some fp) true =
      ((saveBlock st locked1 l1 cm1 (some fp) true).1, []) ∧
    (saveBlock (saveBlock st locked1 l1 cm1 (some fp) true).1 false l3 cm3 (some fp2) true).1.txt =
      (saveBlock st locked1 l1 cm1 (some fp) true).1.txt ++ [(l3.map stripAnsi).map rstripPy] ∧
    (saveBlock (saveBlock st locked1 l1 cm1 (some fp) true).1 false l3 cm3
        (some fp2) true).1.passedRows.length =
      (saveBlock st locked1 l1 cm1 (some fp) true).1.passedRows.length + 1 ∧
    (saveBlock (saveBlock st locked1 l1 cm1 (some fp) true).1 false l3 cm3
        (some fp2) true).1.sheetRows =
      (saveBlock st locked1 l1 cm1 (some fp) true).1.sheetRows ∧
    (saveBlock (saveBlock st locked1 l1 cm1 (some fp) true).1 false l3 cm3
        (some fp2) true).1.lastPassedId = some (stripPy (upperPy fp2)) := by
  have h1 : (saveBlock st locked1 l1 cm1 (some fp) true).1.lastPassedId =
      some (stripPy (upperPy fp)) := by
    rw [saveBlock_auto_known st locked1 l1 cm1 fp hl1 hp1 hfp hid]
    split
    · next hcond => exact hcond
    · rw [persistBlock_lastPassedId]
  have hneq : ¬ (saveBlock st locked1 l1 cm1 (some fp) true).1.lastPassedId =
      some (stripPy (upperPy fp2)) := by
    rw [h1]
    intro hcon
    exact hdiff (Option.some.inj hcon).symm
  refine ⟨?_, ?_⟩
  · rw [saveBlock_auto_known _ locked2 l2 cm2 fp hl2 hp2 hfp hid, if_pos h1]
  · rw [saveBlock_auto_known _ false l3 cm3 fp2 hl3 hp3 hfp2 hid2, if_neg hneq]
    refine ⟨?_, ?_, ?_, ?_⟩ <;> simp [persistBlock]

/-- C1 witness: from a fresh state, an auto PASSED save with fingerprint
AAAA, a duplicate save with AAAA (no-op), then a save with BBBB which is
recorded. -/
theorem claim_C1_dedupe_gate_witness :
    ([['P', 'A', 'S', 'S', 'E', 'D']] : List Str).isEmpty = false ∧
    hasPassedIn (([['P', 'A', 'S', 'S', 'E', 'D']] : List Str).map stripAnsi) = true ∧
    stripPy (upperPy ['B', 'B', 'B', 'B']) ≠ stripPy (upperPy ['A', 'A', 'A', 'A']) ∧
    (saveBlock (saveBlock ⟨none, [], [], []⟩ false [['P', 'A', 'S', 'S', 'E', 'D']] none
          (some ['A', 'A', 'A', 'A']) true).1 false [['P', 'A', 'S', 'S', 'E', 'D']] none
          (some ['A', 'A', 'A', 'A']) true =
        ((saveBlock ⟨none, [], [], []⟩ false [['P', 'A', 'S', 'S', 'E', 'D']] none
          (some ['A', 'A', 'A', 'A']) true).1, []) ∧
      (saveBlock (saveBlock ⟨none, [], [], []⟩ false [['P', 'A', 'S', 'S', 'E', 'D']] none
          (some ['A', 'A', 'A', 'A']) true).1 false [['P', 'A', 'S', 'S', 'E', 'D']] none
          (some ['B', 'B', 'B', 'B']) true).1.txt =
        (saveBlock ⟨none, [], [], []⟩ false [['P', 'A', 'S', 'S', 'E', 'D']] none
          (some ['A', 'A', 'A', 'A']) true).1.txt ++
          [(([['P', 'A', 'S', 'S', 'E', 'D']] : List Str).map stripAnsi).map rstripPy] ∧
      (saveBlock (saveBlock ⟨none, [], [], []⟩ false [['P', 'A', 'S', 'S', 'E', 'D']] none
          (some ['A', 'A', 'A', 'A']) true).1 false [['P', 'A', 'S', 'S', 'E', 'D']] none
          (some ['B', 'B', 'B', 'B']) true).1.passedRows.length =
        (saveBlock ⟨none, [], [], []⟩ false [['P', 'A', 'S', 'S', 'E', 'D']] none
          (some ['A', 'A', 'A', 'A']) true).1.passedRows.length + 1 ∧
      (saveBlock (saveBlock ⟨none, [], [], []⟩ false [['P', 'A', 'S', 'S', 'E', 'D']] none
          (some ['A', 'A', 'A', 'A']) true).1 false [['P', 'A', 'S', 'S', 'E', 'D']] none
          (some ['B', 'B', 'B', 'B']) true).1.sheetRows =
        (saveBlock ⟨none, [], [], []⟩ false [['P', 'A', 'S', 'S', 'E', 'D']] none
          (some ['A', 'A', 'A', 'A']) true).1.sheetRows ∧
      (saveBlock (saveBlock ⟨none, [], [], []⟩ false [['P', 'A', 'S', 'S', 'E', 'D']] none
          (some ['A', 'A', 'A', 'A']) true).1 false [['P', 'A', 'S', 'S', 'E', 'D']] none
          (some ['B', 'B', 'B', 'B']) true).1.lastPassedId =
        some (stripPy (upperPy ['B', 'B', 'B', 'B']))) :=
  ⟨by decide, by decide, by decide,
   claim_C1_dedupe_gate ⟨none, [], [], []⟩ false false
     [['P', 'A', 'S', 'S', 'E', 'D']] [['P', 'A', 'S', 'S', 'E', 'D']]
     [['P', 'A', 'S', 'S', 'E', 'D']] none none none
     ['A', 'A', 'A', 'A'] ['B', 'B', 'B', 'B']
     (by decide) (by decide) (by decide) (by decide) (by decide) (by decide)
     (by decide) (by decide) (by decide) (by decide) (by decide)⟩

/-- C2 counterexample: after an auto-triggered PASSED save whose
spreadsheet write failed (file locked), the text log holds the block but no
row was written, and a retry of the auto save for the same fingerprint with
the file unlocked records nothing: it is refused as a duplicate, refuting
the claim that such a retry can still record it. -/
theorem claim_C2_counterexample :
    (saveBlock ⟨none, [], [], []⟩ true [['P', 'A', 'S', 'S', 'E', 'D']] none
        (some ['A', 'A', 'A', 'A']) true).1.txt.length = 1 ∧
    (saveBlock ⟨none, [], [], []⟩ true [['P', 'A', 'S', 'S', 'E', 'D']] none
        (some ['A', 'A', 'A', 'A']) true).1.passedRows = [] ∧
    saveBlock (saveBlock ⟨none, [], [], []⟩ true [['P', 'A', 'S', 'S', 'E', 'D']] none
        (some ['A', 'A', 'A', 'A']) true).1 false [['P', 'A', 'S', 'S', 'E', 'D']] none
        (some ['A', 'A', 'A', 'A']) true =
      ((saveBlock ⟨none, [], [], []⟩ true [['P', 'A', 'S', 'S', 'E', 'D']] none
        (some ['A', 'A', 'A', 'A']) true).1, []) := by
  decide

/-- C2 amended: when the gate decides to persist an auto PASSED save and
the spreadsheet is locked, the text-log append has already happened and is
kept, no sheet is changed, the failure surfaces as the single recoverable
status excelLocked (the model is a total function: the PermissionError is
caught inside save_block), and the last-recorded fingerprint has already
been updated; consequently a later manual save still records the block,
but a later auto save with the same fingerprint is refused as a
duplicate. -/
theorem claim_C2_amended
    (st : LogState) (l : List Str) (cm : Option (List (List Str))) (fp : Str)
    (hl : l.isEmpty = false) (hp : hasPassedIn (l.map stripAnsi) = true)
    (hfp : fp.isEmpty = false) (hid : (stripPy (upperPy fp)).isEmpty = false)
    (hnew : ¬ st.lastPassedId = some (stripPy (upperPy fp))) :
    (saveBlock st true l cm (some fp) true).1.txt =
      st.txt ++ [(l.map stripAnsi).map rstripPy] ∧
    (saveBlock st true l cm (some fp) true).1.passedRows = st.passedRows ∧
    (saveBlock st true l cm (some fp) true).1.sheetRows = st.sheetRows ∧
    (saveBlock st true l cm (some fp) true).2 = [StatusMsg.excelLocked] ∧
    (saveBlock st true l cm (some fp) true).1.lastPassedId = some (stripPy (upperPy fp)) ∧
    (saveBlock (saveBlock st true l cm (some fp) true).1 false l cm
        (some fp) false).1.passedRows.length = st.passedRows.length + 1 ∧
    saveBlock (saveBlock st true l cm (some fp) true).1 false l cm (some fp) true =
      ((saveBlock st true l cm (some fp) true).1, []) := by
  rw [saveBlock_auto_known st true l cm fp hl hp hfp hid, if_neg hnew]
  have hr1 : persistBlock { st with lastPassedId := some (stripPy (upperPy fp)) } true true
      (l.map stripAnsi) ((parseFrame l cm).1.set 0 (upperPy fp))
      ((parseFrame l cm).2.set 0 black6) =
      ({ lastPassedId := some (stripPy (upperPy fp)),
         txt := st.txt ++ [(l.map stripAnsi).map rstripPy],
         sheetRows := st.sheetRows, passedRows := st.passedRows }, [StatusMsg.excelLocked]) := by
    simp [persistBlock]
  rw [hr1]
  refine ⟨rfl, rfl, rfl, rfl, rfl, ?_, ?_⟩
  · exact (saveBlock_manual_passed _ l cm (some fp) hl hp).1
  · rw [saveBlock_auto_known _ false l cm fp hl hp hfp hid, if_pos rfl]

/-- C2 witness: the amended behaviour on a fresh state, one PASSED frame
and fingerprint AAAA. -/
theorem claim_C2_amended_witness :
    (¬ (⟨none, [], [], []⟩ : LogState).lastPassedId =
        some (stripPy (upperPy ['A', 'A', 'A', 'A']))) ∧
    ((saveBlock ⟨none, [], [], []⟩ true [['P', 'A', 'S', 'S', 'E', 'D']] none
        (some ['A', 'A', 'A', 'A']) true).1.txt =
      (⟨none, [], [], []⟩ : LogState).txt ++
        [(([['P', 'A', 'S', 'S', 'E', 'D']] : List Str).map stripAnsi).map rstripPy] ∧
    (saveBlock ⟨none, [], [], []⟩ true [['P', 'A', 'S', 'S', 'E', 'D']] none
        (some ['A', 'A', 'A', 'A']) true).1.passedRows =
      (⟨none, [], [], []⟩ : LogState).passedRows ∧
    (saveBlock ⟨none, [], [], []⟩ true [['P', 'A', 'S', 'S', 'E', 'D']] none
        (some ['A', 'A', 'A', 'A']) true).1.sheetRows =
      (⟨none, [], [], []⟩ : LogState).sheetRows ∧
    (saveBlock ⟨none, [], [], []⟩ true [['P', 'A', 'S', 'S', 'E', 'D']] none
        (some ['A', 'A', 'A', 'A']) true).2 = [StatusMsg.excelLocked] ∧
    (saveBlock ⟨none, [], [], []⟩ true [['P', 'A', 'S', 'S', 'E', 'D']] none
        (some ['A', 'A', 'A', 'A']) true).1.lastPassedId =
      some (stripPy (upperPy ['A', 'A', 'A', 'A'])) ∧
    (saveBlock (saveBlock ⟨none, [], [], []⟩ true [['P', 'A', 'S', 'S', 'E', 'D']] none
        (some ['A', 'A', 'A', 'A']) true).1 false [['P', 'A', 'S', 'S', 'E', 'D']] none
        (some ['A', 'A', 'A', 'A']) false).1.passedRows.length =
      (⟨none, [], [], []⟩ : LogState).passedRows.length + 1 ∧
    saveBlock (saveBlock ⟨none, [], [], []⟩ true [['P', 'A', 'S', 'S', 'E', 'D']] none
        (some ['A', 'A', 'A', 'A']) true).1 false [['P', 'A', 'S', 'S', 'E', 'D']] none
        (some ['A', 'A', 'A', 'A']) true =
      ((saveBlock ⟨none, [], [], []⟩ true [['P', 'A', 'S', 'S', 'E', 'D']] none
        (some ['A', 'A', 'A', 'A']) true).1, [])) :=
  ⟨by decide,
   claim_C2_amended ⟨none, [], [], []⟩ [['P', 'A', 'S', 'S', 'E', 'D']] none
     ['A', 'A', 'A', 'A'] (by decide) (by decide) (by decide) (by decide) (by decide)⟩

/-- C10: calling save_block with an empty list of lines is a no-op on the
whole log state, for every auto flag, fingerprint override, lock state and
color matrix; the only effect is the error status message. -/
theorem claim_C10_empty_save (st : LogState) (locked : Bool)
    (cm : Option (List (List Str))) (sid : Option Str) (auto : Bool) :
    saveBlock st locked [] cm sid auto = (st, [StatusMsg.noBlock]) := by
  simp [saveBlock]

theorem diffRow_idem (compute : Nat → Str × Str) (r : Nat) :
    ∀ (chs : List Str) (c : Nat) (fgs : List Str),
      diffRow compute r c (diffRow compute r c chs fgs).1 (diffRow compute r c chs fgs).2.1 =
        ((diffRow compute r c chs fgs).1, (diffRow compute r c chs fgs).2.1, []) := by
  intro chs
  induction chs with
  | nil =>
    intro c fgs
    simp [diffRow]
  | cons och chs ih =>
    intro c fgs
    cases fgs with
    | nil => simp [diffRow]
    | cons ofg fgs =>
      by_cases hv : (compute c).1 = och ∧ (compute c).2 = ofg
      · simp only [diffRow, if_pos hv]
        simp [ih (c + 1) fgs]
      · simp only [diffRow, if_neg hv]
        simp [ih (c + 1) fgs]

theorem diffRow_changed (compute : Nat → Str × Str) (r : Nat) :
    ∀ (chs : List Str) (c : Nat) (fgs : List Str) (u : CellUpd),
      u ∈ (diffRow compute r c chs fgs).2.2 →
      u.row = r ∧ c ≤ u.col ∧
        ¬(chs.getD (u.col - c) [] = u.ch ∧ fgs.getD (u.col - c) [] = u.fg) := by
  intro chs
  induction chs with
  | nil =>
    intro c fgs u hu
    simp [diffRow] at hu
  | cons och chs ih =>
    intro c fgs u hu
    cases fgs with
    | nil => simp [diffRow] at hu
    | cons ofg fgs =>
      by_cases hv : (compute c).1 = och ∧ (compute c).2 = ofg
      · simp only [diffRow, if_pos hv] at hu
        obtain ⟨hrow, hcol, hne⟩ := ih (c + 1) fgs u hu
        refine ⟨hrow, by omega, ?_⟩
        have hshift : u.col - c = (u.col - (c + 1)) + 1 := by omega
        rw [hshift]
        simpa using hne
      · simp only [diffRow, if_neg hv] at hu
        rcases List.mem_cons.mp hu with heq | hmem
        · subst heq
          refine ⟨rfl, le_rfl, ?_⟩
          simp only [Nat.sub_self, List.getD]
          intro hcon
          exact hv ⟨hcon.1.symm, hcon.2.symm⟩
        · obtain ⟨hrow, hcol, hne⟩ := ih (c + 1) fgs u hmem
          refine ⟨hrow, by omega, ?_⟩
          have hshift : u.col - c = (u.col - (c + 1)) + 1 := by omega
          rw [hshift]
          simpa using hne

theorem diffRows_idem (screen : Nat → Nat → Option PCell) :
    ∀ (lc : List (List Str)) (r : Nat) (lf : List (List Str)),
      diffRows screen r (diffRows screen r lc lf).1 (diffRows screen r lc lf).2.1 =
        ((diffRows screen r lc lf).1, (diffRows screen r lc lf).2.1, []) := by
  intro lc
  induction lc with
  | nil =>
    intro r lf
    simp [diffRows]
  | cons chRow chRest ih =>
    intro r lf
    cases lf with
    | nil => simp [diffRows]
    | cons fgRow fgRest =>
      simp only [diffRows]
      simp [diffRow_idem (fun c => cellView (screen r c)) r chRow 0 fgRow, ih (r + 1) fgRest]

theorem diffRows_changed (screen : Nat → Nat → Option PCell) :
    ∀ (lc : List (List Str)) (r : Nat) (lf : List (List Str)) (u : CellUpd),
      u ∈ (diffRows screen r lc lf).2.2 →
      r ≤ u.row ∧
        ¬((lc.getD (u.row - r) []).getD u.col [] = u.ch ∧
          (lf.getD (u.row - r) []).getD u.col [] = u.fg) := by
  intro lc
  induction lc with
  | nil =>
    intro r lf u hu
    simp [diffRows] at hu
  | cons chRow chRest ih =>
    intro r lf u hu
    cases lf with
    | nil => simp [diffRows] at hu
    | cons fgRow fgRest =>
      simp only [diffRows, List.mem_append] at hu
      rcases hu with hrow | hrest
      · obtain ⟨hr, _, hne⟩ := diffRow_changed (fun c => cellView (screen r c)) r chRow 0 fgRow u hrow
        subst hr
        simp only [Nat.sub_self, List.getD]
        simpa using hne
      · obtain ⟨hr, hne⟩ := ih (r + 1) fgRest u hrest
        refine ⟨by omega, ?_⟩
        have hshift : u.row - r = (u.row - (r + 1)) + 1 := by omega
        rw [hshift]
        simpa using hne

/-- C9: for every screen state and cache contents, a second render pass
with no intervening screen change performs zero cell-update side effects
and leaves the caches unchanged; moreover, every update of the first pass
is on a cell whose cached character or color differed from the computed
value (unchanged cells are never touched). -/
theorem claim_C9_render_diff (screen : Nat → Nat → Option PCell)
    (lastChars lastColors : List (List Str)) :
    renderDiff screen (renderDiff screen lastChars lastColors).1
        (renderDiff screen lastChars lastColors).2.1 =
      ((renderDiff screen lastChars lastColors).1,
       (renderDiff screen lastChars lastColors).2.1, []) ∧
    ((renderDiff screen lastChars lastColors).2.2.all fun u =>
      !((lastChars.getD u.row []).getD u.col [] == u.ch) ||
      !((lastColors.getD u.row []).getD u.col [] == u.fg)) = true := by
  constructor
  · exact diffRows_idem screen lastChars 0 lastColors
  · rw [List.all_eq_true]
    intro u hu
    obtain ⟨_, hne⟩ := diffRows_changed screen lastChars 0 lastColors u hu
    simp only [Nat.sub_zero] at hne
    simp only [Bool.or_eq_true, Bool.not_eq_true', beq_eq_false_iff_ne]
    by_cases h1 : (lastChars.getD u.row []).getD u.col [] = u.ch
    · by_cases h2 : (lastColors.getD u.row []).getD u.col [] = u.fg
      · exact absurd ⟨h1, h2⟩ hne
      · exact Or.inr h2
    · exact Or.inl h1
